import Mathlib

/-!
Shallow embedding of the drone-vibration analysis pipeline (src/app.py).

The program is a single-file Streamlit app.  Its algorithmic core is:
  Section 1 (lines 178-219): load a CSV, keep the first two columns as
    (Raw, Accel), truncate to 1024 rows, auto-generate Index and a Time
    column at a fixed 0.01 s interval.
  Section 2 (lines 232-250): complex DFT of the Accel column, one-sided
    amplitude (2/N)*|DFT[k]| for k < N//2, zero the DC bin, np.argmax peak.
  Section 4 (lines 316-330): classify on the peak frequency alone via the
    bands f <= 5 / 5 < f <= 10 / 10 < f <= 20 / else.

Rationals stand for the exact values of the Python floats involved in
frequencies and thresholds; the DFT magnitudes live in the reals.
-/

namespace DroneVib

/-- A CSV cell as pandas materialises it: numeric, or a leftover string
(pandas `read_csv` keeps non-numeric fields as strings and raises nothing). -/
inductive Field where
  | num (q : ℚ)
  | str (s : String)
deriving DecidableEq, Repr

/-- Failures of Section 1's try/except block: `read_csv` on empty input
raises `EmptyDataError`, and `iloc[:, j]` on a frame with at most `j`
columns raises `IndexError`; both are caught by the `except` clause and no
dataframe is stored in the session. -/
inductive LoadError where
  | readError
  | missingColumn
deriving DecidableEq, Repr

/-- The normalised waveform Section 1 stores in the session: the (Raw,
Accel) column pair after truncation, plus the fixed metadata `T`. -/
structure Waveform where
  samples : List (Field × Field)
  sampleInterval : ℚ
deriving DecidableEq, Repr

/-- `N = len(df)` (src/app.py line 200). -/
def Waveform.sampleCount (w : Waveform) : ℕ := w.samples.length

/-- Section 1 of src/app.py (lines 181-207): read the table, take the first
two columns as (Raw, Accel), truncate to 1024 rows, and attach the assumed
interval `T_interval = 0.01`.  Timestamps in the input are never consulted:
the Time column is generated as `Index * 0.01`. -/
def loadWaveform (df_raw : List (List Field)) : Except LoadError Waveform :=
  if df_raw.isEmpty then
    .error .readError
  else if df_raw.any (fun r => r.length < 2) then
    .error .missingColumn
  else
    let df := df_raw.map (fun r => (r.getD 0 (.num 0), r.getD 1 (.num 0)))
    let df := if df.length > 1024 then df.take 1024 else df
    .ok { samples := df, sampleInterval := 1 / 100 }

/-- `frequency_hz = k_indices * (1.0 / (N * T))` (src/app.py line 237). -/
def frequency_hz (N : ℕ) (T : ℚ) (k : ℕ) : ℚ := k * (1 / (N * T))

/-- `final_freq = frequency_hz[:half_N]` with `half_N = N // 2`
(src/app.py lines 240-241). -/
def final_freq (N : ℕ) (T : ℚ) : List ℚ :=
  (List.range (N / 2)).map (frequency_hz N T)

/-- `np.argmax`: index of the first occurrence of the maximum element
(src/app.py line 248).  On the empty array numpy raises; the value 0 here
is never relied upon. -/
def argmaxIdx {α : Type} [LinearOrder α] : List α → ℕ
  | [] => 0
  | [_] => 0
  | x :: y :: rest =>
      if x < (y :: rest).getD (argmaxIdx (y :: rest)) x then argmaxIdx (y :: rest) + 1
      else 0

/-- The five diagnosis categories of the spec's data model; the code's
Section 4 renders the first four, `ANOMALOUS` is reserved. -/
inductive Category where
  | NORMAL
  | PROP_IMBALANCE
  | SHAFT_ISSUE
  | BEARING_FAILURE
  | ANOMALOUS
deriving DecidableEq, Repr

/-- Section 4 of src/app.py (lines 316-330): the if/elif/else ladder on
`peak_freq`.  The Python chained comparisons are kept verbatim. -/
def classify (peak_freq : ℚ) : Category :=
  if peak_freq ≤ 5 then .NORMAL
  else if 5 < peak_freq ∧ peak_freq ≤ 10 then .PROP_IMBALANCE
  else if 10 < peak_freq ∧ peak_freq ≤ 20 then .SHAFT_ISSUE
  else .BEARING_FAILURE

/-- The spec's Peak value: `{frequency: float Hz, magnitude: float g}`. -/
structure Peak where
  frequency : ℚ
  magnitude : ℝ

/-- Section 4 as a function of the peak: the ladder reads only
`peak_freq`; `peak_mag` is displayed (line 313) but never tested. -/
def classifyPeak (p : Peak) : Category := classify p.frequency

/-- `dft_coeffs = np.fft.fft(df["Accel"])` (src/app.py line 233): numpy's
FFT computes bin `k` of the complex discrete Fourier transform,
`sum over n of a[n] * exp(-2*pi*i*k*n/N)`. -/
noncomputable def dft_coeffs (a : List ℝ) (k : ℕ) : ℂ :=
  ∑ n ∈ Finset.range a.length,
    (a.getD n 0 : ℂ) *
      Complex.exp (-(2 * (Real.pi : ℂ) * Complex.I * (k : ℂ) * (n : ℂ)) / (a.length : ℂ))

/-- `np.abs` on a complex array: the elementwise modulus
`sqrt(re^2 + im^2)`. -/
noncomputable def np_abs (z : ℂ) : ℝ := Real.sqrt (z.re ^ 2 + z.im ^ 2)

/-- `spectral_amplitude = np.abs(dft_coeffs) * (2.0 / N)`
(src/app.py line 234). -/
noncomputable def spectral_amplitude (a : List ℝ) (k : ℕ) : ℝ :=
  np_abs (dft_coeffs a k) * (2 / (a.length : ℝ))

/-- `final_amp = spectral_amplitude[:half_N]` followed by
`final_amp[0] = 0` (src/app.py lines 242-243). -/
noncomputable def final_amp (a : List ℝ) : List ℝ :=
  ((List.range (a.length / 2)).map (spectral_amplitude a)).set 0 0

/-- `peak_idx = np.argmax(final_amp)` (src/app.py line 248). -/
noncomputable def peak_idx (a : List ℝ) : ℕ := argmaxIdx (final_amp a)

/-- `peak_freq = final_freq[peak_idx]` (src/app.py line 249). -/
noncomputable def peak_freq (a : List ℝ) (T : ℚ) : ℚ :=
  (final_freq a.length T).getD (peak_idx a) 0

/-- `peak_mag = final_amp[peak_idx]` (src/app.py line 250). -/
noncomputable def peak_mag (a : List ℝ) : ℝ :=
  (final_amp a).getD (peak_idx a) 0

/-- The direct DFT written from the spec's words, for comparison with the
code path: "the transform itself must use a standard complex DFT ...
result must match a direct DFT". -/
noncomputable def directDFT (a : List ℝ) (k : ℕ) : ℂ :=
  ∑ n ∈ Finset.range a.length,
    (a.getD n 0 : ℂ) *
      Complex.exp (-(2 * (Real.pi : ℂ) * Complex.I * (n : ℂ) * (k : ℂ)) / (a.length : ℂ))

theorem argmaxIdx_lt_length {α : Type} [LinearOrder α] :
    ∀ l : List α, l ≠ [] → argmaxIdx l < l.length
  | [x], _ => by simp [argmaxIdx]
  | x :: y :: rest, _ => by
      have ih := argmaxIdx_lt_length (y :: rest) (by simp)
      simp only [argmaxIdx]
      split
      · simpa using Nat.succ_lt_succ ih
      · simp

theorem argmaxIdx_is_max {α : Type} [LinearOrder α] :
    ∀ (l : List α) (d : α) (j : ℕ), j < l.length →
      l.getD j d ≤ l.getD (argmaxIdx l) d
  | [], _, _, h => absurd h (by simp)
  | [x], d, j, h => by
      have hj : j = 0 := by simp at h; omega
      subst hj
      simp [argmaxIdx]
  | x :: y :: rest, d, j, h => by
      have hlt := argmaxIdx_lt_length (y :: rest) (by simp)
      by_cases hx : x < (y :: rest).getD (argmaxIdx (y :: rest)) x
      · rw [argmaxIdx, if_pos hx, List.getD_cons_succ]
        cases j with
        | zero =>
            rw [List.getD_cons_zero]
            calc x ≤ (y :: rest).getD (argmaxIdx (y :: rest)) x := le_of_lt hx
            _ = (y :: rest).getD (argmaxIdx (y :: rest)) d := by
                rw [List.getD_eq_getElem _ _ hlt, List.getD_eq_getElem _ _ hlt]
        | succ j' =>
            rw [List.getD_cons_succ]
            exact argmaxIdx_is_max (y :: rest) d j'
              (by simp only [List.length_cons] at h ⊢; omega)
      · rw [argmaxIdx, if_neg hx, List.getD_cons_zero]
        cases j with
        | zero => simp
        | succ j' =>
            rw [List.getD_cons_succ]
            have h1 := argmaxIdx_is_max (y :: rest) d j'
              (by simp only [List.length_cons] at h ⊢; omega)
            have h2 : (y :: rest).getD (argmaxIdx (y :: rest)) d ≤ x := by
              rw [List.getD_eq_getElem _ _ hlt]
              rw [List.getD_eq_getElem _ _ hlt] at hx
              exact le_of_not_lt hx
            exact le_trans h1 h2

theorem argmaxIdx_first_of_ties {α : Type} [LinearOrder α] :
    ∀ (l : List α) (d : α) (j : ℕ), j < argmaxIdx l →
      l.getD j d < l.getD (argmaxIdx l) d
  | [], _, _, h => absurd h (by simp [argmaxIdx])
  | [x], _, _, h => absurd h (by simp [argmaxIdx])
  | x :: y :: rest, d, j, h => by
      have hlt := argmaxIdx_lt_length (y :: rest) (by simp)
      by_cases hx : x < (y :: rest).getD (argmaxIdx (y :: rest)) x
      · rw [argmaxIdx, if_pos hx] at h ⊢
        rw [List.getD_cons_succ]
        cases j with
        | zero =>
            rw [List.getD_cons_zero]
            calc x < (y :: rest).getD (argmaxIdx (y :: rest)) x := hx
            _ = (y :: rest).getD (argmaxIdx (y :: rest)) d := by
                rw [List.getD_eq_getElem _ _ hlt, List.getD_eq_getElem _ _ hlt]
        | succ j' =>
            rw [List.getD_cons_succ]
            exact argmaxIdx_first_of_ties (y :: rest) d j' (Nat.lt_of_succ_lt_succ h)
      · rw [argmaxIdx, if_neg hx] at h
        exact absurd h (Nat.not_lt_zero j)

theorem np_abs_eq_complex_abs (z : ℂ) : np_abs z = Complex.abs z := by
  rw [np_abs, Complex.abs_apply, Complex.normSq_apply]
  ring_nf

theorem dft_coeffs_eq_directDFT (a : List ℝ) (k : ℕ) :
    dft_coeffs a k = directDFT a k := by
  refine Finset.sum_congr rfl fun n _ => ?_
  congr 2
  ring

/-- Claim C1, counterexample: the peak at 7 Hz with magnitude 0.1 g is
below the 0.2 g amplitude floor, yet Section 4 classifies it
PROP_IMBALANCE, not NORMAL — the classification ladder never tests the
magnitude. -/
theorem C1_counterexample :
    (Peak.mk 7 (1/10)).magnitude < 2/10 ∧
      classifyPeak (Peak.mk 7 (1/10)) = Category.PROP_IMBALANCE ∧
      Category.PROP_IMBALANCE ≠ Category.NORMAL := by
  refine ⟨by norm_num, ?_, by decide⟩
  norm_num [classifyPeak, classify]

/-- Claim C1, amended: the classifier never reads the magnitude; a peak
whose magnitude is below the 0.2 g floor is classified NORMAL exactly when
its frequency is at most 5 Hz. -/
theorem C1_low_amplitude_normal_iff (p : Peak) (_h : p.magnitude < 2/10) :
    classifyPeak p = Category.NORMAL ↔ p.frequency ≤ 5 := by
  unfold classifyPeak classify
  rcases le_or_lt p.frequency 5 with h5 | h5
  · simp [h5]
  · have h5' : ¬ p.frequency ≤ 5 := not_le.mpr h5
    rw [if_neg h5']
    constructor
    · intro hc
      exfalso
      split at hc
      · exact absurd hc (by decide)
      · split at hc
        · exact absurd hc (by decide)
        · exact absurd hc (by decide)
    · intro hf
      exact absurd hf h5'

theorem C1_low_amplitude_normal_iff_witness :
    (Peak.mk 3 (1/10)).magnitude < 2/10 ∧
      (classifyPeak (Peak.mk 3 (1/10)) = Category.NORMAL ↔
        (Peak.mk 3 (1/10)).frequency ≤ 5) :=
  ⟨by norm_num, C1_low_amplitude_normal_iff (Peak.mk 3 (1/10)) (by norm_num)⟩

/-- Claim C2: at or above the amplitude floor, classification follows the
half-open bands NORMAL / PROP_IMBALANCE / SHAFT_ISSUE / BEARING_FAILURE;
in particular exactly 5 Hz is NORMAL and 5.0001 Hz is PROP_IMBALANCE. -/
theorem C2_bands (p : Peak) (_h : 2/10 ≤ p.magnitude) :
    (0 < p.frequency → p.frequency ≤ 5 → classifyPeak p = Category.NORMAL) ∧
    (5 < p.frequency → p.frequency ≤ 10 → classifyPeak p = Category.PROP_IMBALANCE) ∧
    (10 < p.frequency → p.frequency ≤ 20 → classifyPeak p = Category.SHAFT_ISSUE) ∧
    (20 < p.frequency → classifyPeak p = Category.BEARING_FAILURE) ∧
    classifyPeak (Peak.mk 5 p.magnitude) = Category.NORMAL ∧
    classifyPeak (Peak.mk (50001/10000) p.magnitude) = Category.PROP_IMBALANCE := by
  refine ⟨?_, ?_, ?_, ?_, ?_, ?_⟩
  · intro _ h5
    simp [classifyPeak, classify, h5]
  · intro h5 h10
    have n5 : ¬ p.frequency ≤ 5 := by linarith
    simp [classifyPeak, classify, n5, h5, h10]
  · intro h10 h20
    have n5 : ¬ p.frequency ≤ 5 := by linarith
    have n10 : ¬ p.frequency ≤ 10 := by linarith
    simp [classifyPeak, classify, n5, n10, h10, h20]
  · intro h20
    have n5 : ¬ p.frequency ≤ 5 := by linarith
    have n10 : ¬ p.frequency ≤ 10 := by linarith
    have n20 : ¬ p.frequency ≤ 20 := by linarith
    simp [classifyPeak, classify, n5, n10, n20]
  · norm_num [classifyPeak, classify]
  · norm_num [classifyPeak, classify]

theorem C2_bands_witness :
    (2:ℝ)/10 ≤ (Peak.mk 8 (1/2)).magnitude ∧
      classifyPeak (Peak.mk 8 (1/2)) = Category.PROP_IMBALANCE :=
  ⟨by norm_num,
   (C2_bands (Peak.mk 8 (1/2)) (by norm_num)).2.1 (by norm_num) (by norm_num)⟩

/-- Claim C3, counterexample: a single-row numeric input (fewer than 2
samples) loads successfully, and so does a two-row input whose fields are
non-numeric strings — the loader validates neither sample count nor
numeric content, contrary to the claimed MalformedInputError. -/
theorem C3_counterexample :
    loadWaveform [[Field.num 349, Field.num 0]] =
      Except.ok { samples := [(Field.num 349, Field.num 0)],
                  sampleInterval := 1/100 } ∧
    loadWaveform [[Field.str "x", Field.str "y"], [Field.str "x", Field.str "y"]] =
      Except.ok { samples := [(Field.str "x", Field.str "y"),
                              (Field.str "x", Field.str "y")],
                  sampleInterval := 1/100 } :=
  ⟨rfl, rfl⟩

/-- Claim C3, amended: the loader fails exactly when required columns are
absent — the input table is empty or some row has fewer than two fields;
it performs no numeric-type and no minimum-sample-count validation.  On
failure no Waveform is produced: the result is an error value, never a
partial waveform. -/
theorem C3_loader_failure_iff (rows : List (List Field)) :
    (∃ e, loadWaveform rows = Except.error e) ↔
      rows = [] ∨ ∃ r ∈ rows, r.length < 2 := by
  unfold loadWaveform
  by_cases h1 : rows.isEmpty
  · rw [if_pos h1]
    constructor
    · intro _
      exact Or.inl (List.isEmpty_iff.mp h1)
    · intro _
      exact ⟨.readError, rfl⟩
  · rw [if_neg h1]
    by_cases h2 : rows.any (fun r => r.length < 2)
    · rw [if_pos h2]
      constructor
      · intro _
        right
        simpa using h2
      · intro _
        exact ⟨.missingColumn, rfl⟩
    · rw [if_neg h2]
      constructor
      · rintro ⟨e, he⟩
        simp at he
      · rintro (h | ⟨r, hr, hlen⟩)
        · subst h
          simp at h1
        · exact absurd (by simpa using ⟨r, hr, hlen⟩) h2

/-- Claim C4, counterexample: a three-column input (time, raw, accel)
whose timestamps step by 0.02 s loads with sample interval 0.01 s, not
time[1] - time[0] = 0.02 s; the loader also binds the time column to Raw
and the raw-count column to Accel, so timestamps are never consulted. -/
theorem C4_counterexample :
    loadWaveform [[Field.num 0, Field.num 349, Field.num 0],
                  [Field.num (2/100), Field.num 349, Field.num 0]] =
      Except.ok { samples := [(Field.num 0, Field.num 349),
                              (Field.num (2/100), Field.num 349)],
                  sampleInterval := 1/100 } ∧
    (1/100 : ℚ) ≠ 2/100 - 0 :=
  ⟨rfl, by norm_num⟩

/-- Claim C4, amended: the loader never derives the sample interval from
timestamps: every successfully loaded waveform, three-column inputs
included, carries the fixed default interval 0.01 s. -/
theorem C4_fixed_interval (rows : List (List Field)) (w : Waveform)
    (h : loadWaveform rows = Except.ok w) : w.sampleInterval = 1/100 := by
  unfold loadWaveform at h
  split at h
  · simp at h
  · split at h
    · simp at h
    · simp only [Except.ok.injEq] at h
      subst h
      rfl

theorem C4_fixed_interval_witness :
    ({ samples := [(Field.num 1, Field.num 2)],
       sampleInterval := 1/100 } : Waveform).sampleInterval = 1/100 :=
  C4_fixed_interval [[Field.num 1, Field.num 2]] _ rfl

/-- Claim C9: the loader keeps exactly the first 1024 rows in their
original order (truncation, not resampling), so the waveform's sample
count is min(input rows, 1024). -/
theorem C9_truncation (rows : List (List Field)) (w : Waveform)
    (h : loadWaveform rows = Except.ok w) :
    w.samples = (rows.take 1024).map
      (fun r => (r.getD 0 (Field.num 0), r.getD 1 (Field.num 0))) ∧
    w.sampleCount = min rows.length 1024 := by
  unfold loadWaveform at h
  split at h
  · simp at h
  · split at h
    · simp at h
    · simp only [Except.ok.injEq] at h
      subst h
      unfold Waveform.sampleCount
      dsimp only
      by_cases hlen :
          (rows.map (fun r => (r.getD 0 (Field.num 0), r.getD 1 (Field.num 0)))).length > 1024
      · rw [if_pos hlen]
        refine ⟨(List.map_take ..).symm, ?_⟩
        simp only [List.length_take, List.length_map, gt_iff_lt] at hlen ⊢
        omega
      · rw [if_neg hlen]
        simp only [List.length_map, gt_iff_lt, not_lt] at hlen
        refine ⟨?_, ?_⟩
        · rw [List.take_of_length_le hlen]
        · simp only [List.length_map]
          omega

theorem C9_truncation_witness :
    ({ samples := [(Field.num 1, Field.num 2)],
       sampleInterval := 1/100 } : Waveform).samples =
      (([[Field.num 1, Field.num 2]] : List (List Field)).take 1024).map
        (fun r => (r.getD 0 (Field.num 0), r.getD 1 (Field.num 0))) ∧
    ({ samples := [(Field.num 1, Field.num 2)],
       sampleInterval := 1/100 } : Waveform).sampleCount =
      min ([[Field.num 1, Field.num 2]] : List (List Field)).length 1024 :=
  C9_truncation [[Field.num 1, Field.num 2]] _ rfl

/-- Claim C5: for N >= 2 and T > 0 the spectrum has exactly N / 2 (integer
division) frequency bins, bin k is at k / (N * T) Hz, and the frequency
sequence is strictly ascending starting at 0. -/
theorem C5_frequency_bins (N : ℕ) (T : ℚ) (hN : 2 ≤ N) (hT : 0 < T) :
    (final_freq N T).length = N / 2 ∧
    (∀ k, k < N / 2 → (final_freq N T).getD k 0 = k / (N * T)) ∧
    (final_freq N T).Pairwise (fun a b => a < b) ∧
    (final_freq N T).getD 0 0 = 0 := by
  have hN0 : (0:ℚ) < (N : ℚ) := by
    have : 0 < N := by omega
    exact_mod_cast this
  refine ⟨by simp [final_freq], ?_, ?_, ?_⟩
  · intro k hk
    have hk' : k < (final_freq N T).length := by simpa [final_freq] using hk
    rw [List.getD_eq_getElem _ _ hk']
    simp only [final_freq, List.getElem_map, List.getElem_range, frequency_hz]
    rw [mul_one_div]
  · unfold final_freq
    rw [List.pairwise_map]
    refine (List.pairwise_lt_range _).imp ?_
    intro a b hab
    unfold frequency_hz
    have h1 : (0:ℚ) < 1 / (N * T) := by positivity
    have hab' : (a:ℚ) < b := by exact_mod_cast hab
    exact mul_lt_mul_of_pos_right hab' h1
  · have h0' : 0 < (final_freq N T).length := by
      simp only [final_freq, List.length_map, List.length_range]
      omega
    rw [List.getD_eq_getElem _ _ h0']
    simp [final_freq, frequency_hz]

theorem C5_frequency_bins_witness :
    ((2:ℕ) ≤ 4 ∧ (0:ℚ) < 1/100) ∧
    (final_freq 4 (1/100)).length = 4 / 2 ∧
    (final_freq 4 (1/100)).getD 1 0 = 1 / (4 * (1/100)) ∧
    (final_freq 4 (1/100)).Pairwise (fun a b => a < b) ∧
    (final_freq 4 (1/100)).getD 0 0 = 0 :=
  ⟨⟨by norm_num, by norm_num⟩,
   (C5_frequency_bins 4 (1/100) (by norm_num) (by norm_num)).1,
   (C5_frequency_bins 4 (1/100) (by norm_num) (by norm_num)).2.1 1 (by norm_num),
   (C5_frequency_bins 4 (1/100) (by norm_num) (by norm_num)).2.2.1,
   (C5_frequency_bins 4 (1/100) (by norm_num) (by norm_num)).2.2.2⟩

theorem final_amp_length (a : List ℝ) : (final_amp a).length = a.length / 2 := by
  simp [final_amp]

theorem getD_set_zero {α : Type} (l : List α) (v d : α) (h : l ≠ []) :
    (l.set 0 v).getD 0 d = v := by
  cases l with
  | nil => exact absurd rfl h
  | cons x xs => rfl

theorem spectral_amplitude_nonneg (a : List ℝ) (k : ℕ) :
    0 ≤ spectral_amplitude a k := by
  unfold spectral_amplitude np_abs
  apply mul_nonneg (Real.sqrt_nonneg _)
  positivity

theorem final_amp_getD_of_ne (a : List ℝ) (k : ℕ) (h0 : k ≠ 0)
    (hk : k < a.length / 2) :
    (final_amp a).getD k 0 = spectral_amplitude a k := by
  have hk' : k < (final_amp a).length := by rw [final_amp_length]; exact hk
  rw [List.getD_eq_getElem _ _ hk']
  unfold final_amp
  rw [List.getElem_set_of_ne (Ne.symm h0)]
  simp only [List.getElem_map, List.getElem_range]

theorem final_amp_getD_nonneg (a : List ℝ) (k : ℕ) :
    0 ≤ (final_amp a).getD k 0 := by
  by_cases hk : k < (final_amp a).length
  · rcases eq_or_ne k 0 with rfl | hne
    · have hnil : ((List.range (a.length / 2)).map (spectral_amplitude a)) ≠ [] := by
        rw [← List.length_pos_iff_ne_nil]
        simp only [List.length_map, List.length_range]
        rw [final_amp_length] at hk
        omega
      unfold final_amp
      rw [getD_set_zero _ _ _ hnil]
    · rw [final_amp_getD_of_ne a k hne (by rwa [final_amp_length] at hk)]
      exact spectral_amplitude_nonneg a k
  · rw [List.getD_eq_default _ _ (le_of_not_lt hk)]

/-- Claim C6: the spectral amplitude at each bin k equals
(2 / sample_count) * |DFT[k]| where DFT is the standard complex discrete
Fourier transform of the acceleration series (the spec's direct DFT);
in exact arithmetic the match is exact, hence within any floating-point
tolerance.  The second conjunct carries this to the retained non-DC
spectrum bins. -/
theorem C6_magnitude_is_scaled_dft (a : List ℝ) (k : ℕ) :
    spectral_amplitude a k = 2 / (a.length : ℝ) * Complex.abs (directDFT a k) ∧
    (k ≠ 0 → k < a.length / 2 →
      (final_amp a).getD k 0 = 2 / (a.length : ℝ) * Complex.abs (directDFT a k)) := by
  have hmain : spectral_amplitude a k
      = 2 / (a.length : ℝ) * Complex.abs (directDFT a k) := by
    rw [spectral_amplitude, np_abs_eq_complex_abs, dft_coeffs_eq_directDFT, mul_comm]
  exact ⟨hmain, fun h0 hk => by rw [final_amp_getD_of_ne a k h0 hk, hmain]⟩

theorem C6_magnitude_is_scaled_dft_witness :
    ((1:ℕ) ≠ 0 ∧ 1 < ([0,0,0,0] : List ℝ).length / 2) ∧
    (final_amp ([0,0,0,0] : List ℝ)).getD 1 0 =
      2 / (([0,0,0,0] : List ℝ).length : ℝ) *
        Complex.abs (directDFT ([0,0,0,0] : List ℝ) 1) :=
  ⟨⟨by norm_num, by simp⟩,
   (C6_magnitude_is_scaled_dft ([0,0,0,0] : List ℝ) 1).2 (by norm_num) (by simp)⟩

theorem spectral_amplitude_of_zeros (k : ℕ) :
    spectral_amplitude ([0,0,0,0] : List ℝ) k = 0 := by
  unfold spectral_amplitude np_abs dft_coeffs
  have hz : ∀ n, ((([0,0,0,0] : List ℝ).getD n 0 : ℝ) : ℂ) = 0 := by
    intro n
    rcases n with _ | _ | _ | _ | n <;> simp [List.getD]
  rw [Finset.sum_congr rfl fun n _ => by rw [hz n, zero_mul]]
  simp

/-- Claim C7, counterexample: for the all-zero acceleration series the DC
bin IS selected as the peak (np.argmax of an all-zero array returns index
0), refuting "the DC bin can never be selected as the peak". -/
theorem C7_counterexample :
    2 ≤ ([0,0,0,0] : List ℝ).length ∧ peak_idx ([0,0,0,0] : List ℝ) = 0 := by
  refine ⟨by simp, ?_⟩
  have hfa : final_amp ([0,0,0,0] : List ℝ) = [0, 0] := by
    unfold final_amp
    rw [show ([0,0,0,0] : List ℝ).length = 4 from rfl]
    rw [show List.range (4 / 2) = [0, 1] from rfl]
    simp [spectral_amplitude_of_zeros]
  unfold peak_idx
  rw [hfa]
  simp [argmaxIdx]

/-- Claim C7, amended: magnitudes[0] equals 0 — the DC bin is explicitly
zeroed after the magnitude computation, even when the raw bin-0 value is
nonzero — so the DC bin can never carry a strictly maximal magnitude; it
is selected as the peak only in the degenerate case in which every
retained magnitude is zero. -/
theorem C7_dc_zeroed (a : List ℝ) (h : 2 ≤ a.length) :
    (final_amp a).getD 0 0 = 0 ∧
    (peak_idx a = 0 →
      ∀ k, k < (final_amp a).length → (final_amp a).getD k 0 = 0) := by
  have hne : final_amp a ≠ [] := by
    rw [← List.length_pos_iff_ne_nil, final_amp_length]
    omega
  have hdc : (final_amp a).getD 0 0 = 0 := by
    unfold final_amp
    rw [getD_set_zero]
    rw [← List.length_pos_iff_ne_nil]
    simp only [List.length_map, List.length_range]
    omega
  refine ⟨hdc, fun hpk k hk => ?_⟩
  have hle := argmaxIdx_is_max (final_amp a) 0 k hk
  rw [show argmaxIdx (final_amp a) = peak_idx a from rfl, hpk, hdc] at hle
  exact le_antisymm hle (final_amp_getD_nonneg a k)

theorem C7_dc_zeroed_witness :
    2 ≤ ([0,0,0,0] : List ℝ).length ∧
      (final_amp ([0,0,0,0] : List ℝ)).getD 0 0 = 0 :=
  ⟨by simp, (C7_dc_zeroed ([0,0,0,0] : List ℝ) (by simp)).1⟩

/-- Claim C8: for every nonempty spectrum the extractor returns the bin of
maximum magnitude, and when several bins share the exact maximum it
returns the lowest-indexed one (every earlier bin is strictly smaller);
`peak_idx` is a pure function of the spectrum, hence deterministic for
identical input. -/
theorem C8_peak_extraction (a : List ℝ) (h : final_amp a ≠ []) :
    peak_idx a < (final_amp a).length ∧
    (∀ j, j < (final_amp a).length →
      (final_amp a).getD j 0 ≤ (final_amp a).getD (peak_idx a) 0) ∧
    (∀ j, j < peak_idx a →
      (final_amp a).getD j 0 < (final_amp a).getD (peak_idx a) 0) :=
  ⟨argmaxIdx_lt_length _ h,
   fun j hj => argmaxIdx_is_max _ 0 j hj,
   fun j hj => argmaxIdx_first_of_ties _ 0 j hj⟩

theorem C8_peak_extraction_witness :
    final_amp ([0,0,0,0] : List ℝ) ≠ [] ∧
    peak_idx ([0,0,0,0] : List ℝ) < (final_amp ([0,0,0,0] : List ℝ)).length ∧
    (final_amp ([0,0,0,0] : List ℝ)).getD 1 0 ≤
      (final_amp ([0,0,0,0] : List ℝ)).getD (peak_idx ([0,0,0,0] : List ℝ)) 0 :=
  have hne : final_amp ([0,0,0,0] : List ℝ) ≠ [] := by
    rw [← List.length_pos_iff_ne_nil, final_amp_length]
    simp
  ⟨hne, (C8_peak_extraction _ hne).1,
   (C8_peak_extraction _ hne).2.1 1 (by rw [final_amp_length]; simp)⟩

/-- Claim C10: with at least 2 samples and a positive sample interval, the
extracted peak frequency is strictly below the Nyquist frequency 1/(2T)
(only bins 0 .. N/2 - 1 are retained); hence BEARING_FAILURE can only
arise from a peak strictly between 20 Hz and the Nyquist frequency. -/
theorem C10_nyquist (a : List ℝ) (T : ℚ) (hN : 2 ≤ a.length) (hT : 0 < T) :
    peak_freq a T < 1 / (2 * T) ∧
    (classify (peak_freq a T) = Category.BEARING_FAILURE →
      20 < peak_freq a T ∧ peak_freq a T < 1 / (2 * T)) := by
  have hne : final_amp a ≠ [] := by
    rw [← List.length_pos_iff_ne_nil, final_amp_length]
    omega
  have hidx : peak_idx a < a.length / 2 := by
    have := argmaxIdx_lt_length (final_amp a) hne
    rwa [final_amp_length] at this
  have hlen : peak_idx a < (final_freq a.length T).length := by
    simpa only [final_freq, List.length_map, List.length_range] using hidx
  have hfreq : peak_freq a T = (peak_idx a : ℚ) * (1 / ((a.length : ℚ) * T)) := by
    unfold peak_freq
    rw [List.getD_eq_getElem _ _ hlen]
    simp only [final_freq, List.getElem_map, List.getElem_range, frequency_hz]
  have h2k : 2 * peak_idx a < a.length := by omega
  have h2k' : (2 * (peak_idx a : ℚ)) < (a.length : ℚ) := by exact_mod_cast h2k
  have hNq : (0:ℚ) < (a.length : ℚ) := by
    have : 0 < a.length := by omega
    exact_mod_cast this
  have hbound : peak_freq a T < 1 / (2 * T) := by
    rw [hfreq, mul_one_div, div_lt_div_iff₀ (by positivity) (by positivity)]
    calc (peak_idx a : ℚ) * (2 * T) = 2 * (peak_idx a : ℚ) * T := by ring
    _ < (a.length : ℚ) * T := mul_lt_mul_of_pos_right h2k' hT
    _ = 1 * ((a.length : ℚ) * T) := by ring
  refine ⟨hbound, fun hc => ⟨?_, hbound⟩⟩
  by_contra h20
  push_neg at h20
  have hnc : classify (peak_freq a T) ≠ Category.BEARING_FAILURE := by
    unfold classify
    rcases le_or_lt (peak_freq a T) 5 with h5 | h5
    · simp [h5]
    · rcases le_or_lt (peak_freq a T) 10 with h10 | h10
      · simp [not_le.mpr h5, h5, h10]
      · simp [not_le.mpr h5, not_le.mpr h10, h10, h20]
  exact hnc hc

theorem C10_nyquist_witness :
    (2 ≤ ([0,0,0,0] : List ℝ).length ∧ (0:ℚ) < 1/100) ∧
    peak_freq ([0,0,0,0] : List ℝ) (1/100) < 1 / (2 * (1/100)) :=
  ⟨⟨by simp, by norm_num⟩,
   (C10_nyquist ([0,0,0,0] : List ℝ) (1/100) (by simp) (by norm_num)).1⟩

end DroneVib
